/-
Verification of the core data-acquisition layer of MONTANA_FSAE_DASH_V2.

Shallow embedding of:
  * `SignalBuffer` from race_dash_core.py (lines 12-61): a Python dict of
    latest values per channel, plus a per-channel `deque(maxlen=100)` history,
    all guarded by one lock.  Dicts are modelled as association lists whose
    set-operation keeps an existing key in place and appends a new key at the
    end, exactly like CPython dict insertion order.  `time.time()` is ambient
    nondeterminism; each buffer operation takes the sampled time as an explicit
    parameter `t` (the source samples the clock more than once inside one call;
    no property below distinguishes those instants, so one parameter per call
    is used).
  * the simulated CAN worker `CANThread._simulate_can` (lines 81-120): the
    triangle-wave engine-speed generator and the throttle/brake outputs.
    Python's `int(a / b)` truncates toward zero; every division below has a
    nonnegative numerator on reachable states, where truncation and Lean's
    flooring `Int` division coincide.
  * the restart path `SettingsScreen._apply_settings` from race_dash_gui.py
    (lines 825-847) together with the `CANThread.__init__` signature it calls.
  * a small dict-heap model for the aliasing behaviour of
    `SignalBuffer.get_all` (`return self.data.copy()`), and an interleaving
    model of lock-serialised critical sections for the batch-atomicity
    property of `update_multiple`.
-/
import Mathlib

/-! ### Association lists with CPython dict semantics -/

/-- Lookup in an association list: first entry with the given key wins. -/
def alookup {κ α : Type} [DecidableEq κ] : List (κ × α) → κ → Option α
  | [], _ => none
  | p :: rest, k => if p.1 = k then some p.2 else alookup rest k

/-- `k in d` for a modelled dict. -/
def acontains {κ α : Type} [DecidableEq κ] (m : List (κ × α)) (k : κ) : Bool :=
  (alookup m k).isSome

/-- `d[k] = v` for a modelled dict: an existing key is overwritten in place,
a new key is appended at the end (CPython insertion order). -/
def aset {κ α : Type} [DecidableEq κ] (m : List (κ × α)) (k : κ) (v : α) :
    List (κ × α) :=
  if acontains m k then m.map (fun p => if p.1 = k then (k, v) else p)
  else m ++ [(k, v)]

theorem alookup_append {κ α : Type} [DecidableEq κ]
    (m₁ m₂ : List (κ × α)) (k : κ) :
    alookup (m₁ ++ m₂) k =
      match alookup m₁ k with
      | some v => some v
      | none => alookup m₂ k := by
  induction m₁ with
  | nil => simp [alookup]
  | cons p rest ih =>
      by_cases h : p.1 = k <;> simp [alookup, h, ih]

theorem alookup_map_set_self {κ α : Type} [DecidableEq κ]
    (m : List (κ × α)) (k : κ) (v : α) (hmem : acontains m k = true) :
    alookup (m.map (fun p => if p.1 = k then (k, v) else p)) k = some v := by
  induction m with
  | nil => simp [acontains, alookup] at hmem
  | cons p rest ih =>
      simp only [List.map_cons]
      by_cases h : p.1 = k
      · simp [alookup, h]
      · have hmem' : acontains rest k = true := by
          simpa [acontains, alookup, h] using hmem
        simp [alookup, h, ih hmem']

theorem alookup_map_set_ne {κ α : Type} [DecidableEq κ]
    (m : List (κ × α)) (k k' : κ) (v : α) (hne : k' ≠ k) :
    alookup (m.map (fun p => if p.1 = k then (k, v) else p)) k' =
      alookup m k' := by
  induction m with
  | nil => simp
  | cons p rest ih =>
      simp only [List.map_cons]
      by_cases h : p.1 = k
      · simp [alookup, h, Ne.symm hne, ih]
      · simp [alookup, h, ih]

theorem alookup_aset_self {κ α : Type} [DecidableEq κ]
    (m : List (κ × α)) (k : κ) (v : α) :
    alookup (aset m k v) k = some v := by
  unfold aset
  by_cases h : acontains m k
  · simp [h, alookup_map_set_self m k v h]
  · have hnone : alookup m k = none := by
      simp [acontains] at h
      exact Option.eq_none_of_isNone (by simpa using h)
    simp [h, alookup_append, hnone, alookup]

theorem alookup_aset_ne {κ α : Type} [DecidableEq κ]
    (m : List (κ × α)) (k k' : κ) (v : α) (hne : k' ≠ k) :
    alookup (aset m k v) k' = alookup m k' := by
  unfold aset
  by_cases h : acontains m k
  · simp [h, alookup_map_set_ne m k k' v hne]
  · simp [h, alookup_append]
    cases hl : alookup m k' with
    | some v' => simp
    | none => simp [alookup, Ne.symm hne]

theorem acontains_aset_of_acontains {κ α : Type} [DecidableEq κ]
    (m : List (κ × α)) (k k' : κ) (v : α) (h : acontains m k' = true) :
    acontains (aset m k v) k' = true := by
  by_cases hk : k' = k
  · subst hk
    simp [acontains, alookup_aset_self]
  · simpa [acontains, alookup_aset_ne m k k' v hk] using h

/-! ### The Signal Buffer (race_dash_core.py, `SignalBuffer`) -/

/-- Keys of `self.data` as initialised in `SignalBuffer.__init__`
(race_dash_core.py lines 17-25); `self.history` is built over the same keys
(line 27). -/
def chanKeys : List String :=
  ["rpm", "speed", "throttle", "brake", "coolant_temp", "oil_pressure",
   "timestamp"]

/-- The last `n` elements of a list, in order. -/
def lastN {α : Type} (n : Nat) (l : List α) : List α :=
  l.drop (l.length - n)

/-- Appending to a `deque(maxlen=100)`: the oldest entry is evicted once the
capacity is exceeded, so the result is the last 100 elements. -/
def dequeAppend (l : List (Int × Int)) (x : Int × Int) : List (Int × Int) :=
  lastN 100 (l ++ [x])

/-- State of a `SignalBuffer`: `data` is the latest-value dict (declared
channels plus `timestamp`), `history` maps each declared key to its bounded
list of `(timestamp, value)` samples, oldest first. -/
structure SignalBuffer where
  data : List (String × Int)
  history : List (String × List (Int × Int))
deriving DecidableEq, Repr

/-- `SignalBuffer.__init__`: every key starts at value 0 with empty history. -/
def SignalBuffer.init : SignalBuffer :=
  ⟨chanKeys.map (fun k => (k, 0)), chanKeys.map (fun k => (k, []))⟩

/-- Result of `SignalBuffer.update`: either the new state, or a `KeyError`
carrying the state as mutated before the raise. -/
inductive UpdateResult where
  | ok (st : SignalBuffer)
  | keyError (st : SignalBuffer)
deriving DecidableEq, Repr

def UpdateResult.state : UpdateResult → SignalBuffer
  | .ok st => st
  | .keyError st => st

def UpdateResult.isOk : UpdateResult → Bool
  | .ok _ => true
  | .keyError _ => false

/-- `SignalBuffer.update(key, value)` (lines 29-34): sets `data[key]`, then
`data['timestamp']`, then appends to `history[key]`.  The subscript
`self.history[key]` raises `KeyError` for an unknown key, after the two
`data` assignments have already happened. -/
def SignalBuffer.update (st : SignalBuffer) (key : String) (value t : Int) :
    UpdateResult :=
  let d := aset (aset st.data key value) "timestamp" t
  match alookup st.history key with
  | some h => .ok ⟨d, aset st.history key (dequeAppend h (t, value))⟩
  | none => .keyError ⟨d, st.history⟩

/-- `SignalBuffer.update_multiple(updates)` (lines 36-44): writes every pair
into `data`, refreshes `data['timestamp']`, then appends to the history of
each key that passes the `if key in self.history` guard.  Never raises. -/
def SignalBuffer.update_multiple (st : SignalBuffer)
    (updates : List (String × Int)) (t : Int) : SignalBuffer :=
  let d := aset (updates.foldl (fun m p => aset m p.1 p.2) st.data)
    "timestamp" t
  let h := updates.foldl
    (fun hm p =>
      match alookup hm p.1 with
      | some hl => aset hm p.1 (dequeAppend hl (t, p.2))
      | none => hm)
    st.history
  ⟨d, h⟩

/-- `SignalBuffer.get(key)` (lines 46-49): `self.data.get(key, 0)`. -/
def SignalBuffer.get (st : SignalBuffer) (key : String) : Int :=
  (alookup st.data key).getD 0

/-- `SignalBuffer.get_all()` (lines 51-54): `self.data.copy()` — the value of
the dict at call time (aliasing of the copy is modelled separately on the
dict heap below). -/
def SignalBuffer.get_all (st : SignalBuffer) : List (String × Int) :=
  st.data

/-- Result of `SignalBuffer.get_history`: the copied list, or the `KeyError`
from `self.history[key]` on an unknown key. -/
inductive HistResult where
  | ok (entries : List (Int × Int))
  | keyError
deriving DecidableEq, Repr

/-- `SignalBuffer.get_history(key, count=None)` (lines 56-61): `if count:` is
a truthiness test, so both `None` and `0` return the whole history; a positive
`count` returns `list(...)[-count:]`, the last `count` entries. -/
def SignalBuffer.get_history (st : SignalBuffer) (key : String)
    (count : Option Nat) : HistResult :=
  match alookup st.history key with
  | none => .keyError
  | some h =>
      match count with
      | some c => if c = 0 then .ok h else .ok (lastN c h)
      | none => .ok h

/-- One buffer mutation, as issued by producers: a single `update` call or an
`update_multiple` call. -/
inductive BufOp where
  | upd (key : String) (value t : Int)
  | updMulti (updates : List (String × Int)) (t : Int)
deriving DecidableEq, Repr

/-- The state after one operation; for `update` this is the state even when
the call raised `KeyError` (the mutations before the raise persist). -/
def applyOp (st : SignalBuffer) : BufOp → SignalBuffer
  | .upd k v t => (st.update k v t).state
  | .updMulti u t => st.update_multiple u t

/-- The buffer state after a whole single-threaded sequence of calls. -/
def runOps (st : SignalBuffer) (ops : List BufOp) : SignalBuffer :=
  ops.foldl applyOp st

/-! ### The simulated worker (race_dash_core.py, `CANThread._simulate_can`) -/

/-- Loop state of `_simulate_can`: current `rpm` and `rpm_direction`. -/
structure SimState where
  rpm : Int
  dir : Int
deriving DecidableEq, Repr

/-- Initial values before the first iteration (lines 83-85):
`rpm = 1000`, `rpm_direction = 40`. -/
def simInit : SimState := ⟨1000, 40⟩

/-- One loop iteration's engine-speed arithmetic (lines 89-95):
`rpm += rpm_direction`, then clamp at 13500 flipping to -40, else clamp at
1000 flipping to +40. -/
def simStep (s : SimState) : SimState :=
  let r := s.rpm + s.dir
  if r ≥ 13500 then ⟨13500, -40⟩
  else if r ≤ 1000 then ⟨1000, 40⟩
  else ⟨r, s.dir⟩

/-- Throttle output of the same iteration (lines 100-107), computed after the
direction may have flipped: `min(100, int((rpm - 1000) / 125))` when
accelerating, else 0.  The numerator is nonnegative on every reachable state,
where Python's truncating `int()` agrees with Lean's `Int` division. -/
def throttleOf (s : SimState) : Int :=
  if s.dir > 0 then min 100 ((s.rpm - 1000) / 125) else 0

/-- Brake output of the same iteration (lines 100-107): 0 when accelerating,
else `min(100, int((13500 - rpm) / 125))`. -/
def brakeOf (s : SimState) : Int :=
  if s.dir > 0 then 0 else min 100 ((13500 - s.rpm) / 125)

/-- Road speed output (line 97): `int(rpm / 100)`. -/
def speedOf (s : SimState) : Int := s.rpm / 100

/-- Invariant of the simulation loop state. -/
def SimInv (s : SimState) : Prop :=
  (s.dir = 40 ∨ s.dir = -40) ∧ 1000 ≤ s.rpm ∧ s.rpm ≤ 13500 ∧
    (s.rpm = 13500 → s.dir = -40) ∧ (s.rpm = 1000 → s.dir = 40)

theorem simInv_init : SimInv simInit := by
  constructor
  · left; rfl
  refine ⟨by norm_num [simInit], by norm_num [simInit], ?_, ?_⟩
  · intro h; simp [simInit] at h
  · intro _; rfl

theorem simInv_step (s : SimState) (h : SimInv s) : SimInv (simStep s) := by
  obtain ⟨hdir, hlo, hhi, hpeak, hbot⟩ := h
  unfold simStep
  by_cases h1 : s.rpm + s.dir ≥ 13500
  · simp only [h1, if_pos]
    exact ⟨Or.inr rfl, by norm_num, by norm_num, fun _ => rfl, by norm_num⟩
  · by_cases h2 : s.rpm + s.dir ≤ 1000
    · simp only [h1, h2, if_neg, if_pos, not_false_iff]
      exact ⟨Or.inl rfl, by norm_num, by norm_num, by norm_num, fun _ => rfl⟩
    · simp only [h1, h2, if_neg, not_false_iff]
      rcases hdir with hd | hd <;> rw [hd] at h1 h2 ⊢ <;>
        exact ⟨by dsimp only; omega, by dsimp only; omega, by dsimp only; omega,
          by dsimp only; omega, by dsimp only; omega⟩

theorem simInv_iterate (K : Nat) : SimInv (simStep^[K] simInit) := by
  induction K with
  | zero => simpa using simInv_init
  | succ n ih =>
      rw [Function.iterate_succ_apply']
      exact simInv_step _ ih

set_option maxRecDepth 2000 in
theorem sim_at_50 : simStep^[50] simInit = ⟨3000, 40⟩ := by decide

set_option maxRecDepth 2000 in
theorem sim_at_100 : simStep^[100] simInit = ⟨5000, 40⟩ := by
  have h : (100 : Nat) = 50 + 50 := rfl
  rw [h, Function.iterate_add_apply, sim_at_50]
  decide

set_option maxRecDepth 2000 in
theorem sim_at_150 : simStep^[150] simInit = ⟨7000, 40⟩ := by
  have h : (150 : Nat) = 50 + 100 := rfl
  rw [h, Function.iterate_add_apply, sim_at_100]
  decide

set_option maxRecDepth 2000 in
theorem sim_at_200 : simStep^[200] simInit = ⟨9000, 40⟩ := by
  have h : (200 : Nat) = 50 + 150 := rfl
  rw [h, Function.iterate_add_apply, sim_at_150]
  decide

set_option maxRecDepth 2000 in
theorem sim_at_250 : simStep^[250] simInit = ⟨11000, 40⟩ := by
  have h : (250 : Nat) = 50 + 200 := rfl
  rw [h, Function.iterate_add_apply, sim_at_200]
  decide

set_option maxRecDepth 2000 in
theorem sim_at_300 : simStep^[300] simInit = ⟨13000, 40⟩ := by
  have h : (300 : Nat) = 50 + 250 := rfl
  rw [h, Function.iterate_add_apply, sim_at_250]
  decide

/-- Branch lemma for `simStep`: the upper clamp-and-flip case. -/
theorem simStep_high (s : SimState) (h1 : s.rpm + s.dir ≥ 13500) :
    simStep s = ⟨13500, -40⟩ := by
  simp only [simStep]
  rw [if_pos h1]

/-- Branch lemma for `simStep`: the interior case. -/
theorem simStep_mid (s : SimState) (h1 : s.rpm + s.dir < 13500)
    (h2 : 1000 < s.rpm + s.dir) : simStep s = ⟨s.rpm + s.dir, s.dir⟩ := by
  simp only [simStep]
  rw [if_neg (by omega), if_neg (by omega)]

set_option maxRecDepth 2000 in
/-- On tick 313 the incremented engine speed first reaches the 13500 bound:
it is clamped and the direction flips within that same iteration. -/
theorem sim_peak : simStep^[313] simInit = ⟨13500, -40⟩ := by
  have h : (313 : Nat) = 13 + 300 := rfl
  rw [h, Function.iterate_add_apply, sim_at_300]
  decide

/-- C1 (counterexample): on the tick at which engine speed equals 13500 (tick
313 from the start), the direction has already flipped to -40 inside that same
iteration, and the throttle/brake computation that follows sees the flipped
direction: throttle is 0, not 100 as the claim states (brake is 0 as well). -/
theorem sim_peak_throttle_not_100 :
    (simStep^[313] simInit).rpm = 13500 ∧
      throttleOf (simStep^[313] simInit) = 0 ∧
      throttleOf (simStep^[313] simInit) ≠ 100 ∧
      brakeOf (simStep^[313] simInit) = 0 := by
  rw [sim_peak]
  decide

/-- C1 (amended): on every tick, throttle and brake are determined by engine
speed and the direction as updated by that same tick: while the direction is
positive, throttle = clamp(0,100, floor((rpm-1000)/125)) and brake = 0; while
negative, throttle = 0 and brake = clamp(0,100, floor((13500-rpm)/125)); on
the tick at which engine speed equals 13500 the direction has already flipped,
so throttle = 0 and brake = 0. -/
theorem sim_outputs_follow_direction (K : Nat) :
    ((simStep^[K] simInit).dir > 0 →
      throttleOf (simStep^[K] simInit) =
        max 0 (min 100 (((simStep^[K] simInit).rpm - 1000) / 125)) ∧
      brakeOf (simStep^[K] simInit) = 0) ∧
    ((simStep^[K] simInit).dir < 0 →
      throttleOf (simStep^[K] simInit) = 0 ∧
      brakeOf (simStep^[K] simInit) =
        max 0 (min 100 ((13500 - (simStep^[K] simInit).rpm) / 125))) ∧
    ((simStep^[K] simInit).rpm = 13500 →
      throttleOf (simStep^[K] simInit) = 0 ∧
      brakeOf (simStep^[K] simInit) = 0) := by
  obtain ⟨hdir, hlo, hhi, hpeak, hbot⟩ := simInv_iterate K
  refine ⟨?_, ?_, ?_⟩
  · intro hd
    have h0 : (0 : Int) ≤ ((simStep^[K] simInit).rpm - 1000) / 125 := by omega
    constructor
    · simp only [throttleOf, hd, if_pos]
      exact (max_eq_right (le_min (by norm_num) h0)).symm
    · simp [brakeOf, hd]
  · intro hd
    have hnd : ¬ (simStep^[K] simInit).dir > 0 := by omega
    have h0 : (0 : Int) ≤ (13500 - (simStep^[K] simInit).rpm) / 125 := by omega
    constructor
    · simp [throttleOf, hnd]
    · simp only [brakeOf, hnd, if_neg]
      exact (max_eq_right (le_min (by norm_num) h0)).symm
  · intro hp
    have hd : (simStep^[K] simInit).dir = -40 := hpeak hp
    constructor
    · simp [throttleOf, hd]
    · simp [brakeOf, hd, hp]

/-- Witness for `sim_outputs_follow_direction`: at tick 1 the worker is
accelerating and the formula applies; at tick 313 engine speed is 13500 and
both outputs are 0. -/
theorem sim_outputs_follow_direction_witness :
    (throttleOf (simStep^[1] simInit) =
        max 0 (min 100 (((simStep^[1] simInit).rpm - 1000) / 125)) ∧
      brakeOf (simStep^[1] simInit) = 0) ∧
    (throttleOf (simStep^[313] simInit) = 0 ∧
      brakeOf (simStep^[313] simInit) = 0) :=
  ⟨(sim_outputs_follow_direction 1).1 (by decide),
   (sim_outputs_follow_direction 313).2.2 (by rw [sim_peak])⟩

/-- C2 (confirmed): from rpm 1000 with step 40, engine speed after K ticks
with no direction reversal in the first K ticks is 1000 + 40K; once the
incremented speed reaches 13500 the direction is -40 (so the following tick
moves down), at 1000 it is +40, and engine speed always stays within
[1000, 13500] — a triangle wave. -/
theorem sim_engine_speed_triangle_wave :
    (∀ K : Nat, (∀ j, j ≤ K → (simStep^[j] simInit).dir = 40) →
      (simStep^[K] simInit).rpm = 1000 + 40 * K) ∧
    (∀ K : Nat, (simStep^[K] simInit).rpm = 13500 →
      (simStep^[K] simInit).dir = -40) ∧
    (∀ K : Nat, (simStep^[K] simInit).rpm = 1000 →
      (simStep^[K] simInit).dir = 40) ∧
    (∀ K : Nat, 1000 ≤ (simStep^[K] simInit).rpm ∧
      (simStep^[K] simInit).rpm ≤ 13500) := by
  refine ⟨?_, fun K => (simInv_iterate K).2.2.2.1,
    fun K => (simInv_iterate K).2.2.2.2,
    fun K => ⟨(simInv_iterate K).2.1, (simInv_iterate K).2.2.1⟩⟩
  intro K
  induction K with
  | zero => intro _; simp [simInit]
  | succ n ih =>
      intro h
      have hdn : (simStep^[n] simInit).dir = 40 := h n (by omega)
      have ihr : (simStep^[n] simInit).rpm = 1000 + 40 * n :=
        ih (fun j hj => h j (by omega))
      have hdn1 : (simStep^[n + 1] simInit).dir = 40 := h (n + 1) (by omega)
      rw [Function.iterate_succ_apply'] at hdn1 ⊢
      rcases lt_or_ge
          ((simStep^[n] simInit).rpm + (simStep^[n] simInit).dir) 13500
        with hc | hc
      · have hmid :
            1000 < (simStep^[n] simInit).rpm + (simStep^[n] simInit).dir := by
          omega
        rw [simStep_mid _ hc hmid]
        dsimp only
        omega
      · rw [simStep_high _ hc] at hdn1
        simp at hdn1

/-- Witness for `sim_engine_speed_triangle_wave`: after 3 reversal-free ticks
engine speed is 1120, and the bounds hold at tick 5. -/
theorem sim_engine_speed_triangle_wave_witness :
    (simStep^[3] simInit).rpm = 1000 + 40 * 3 ∧
      1000 ≤ (simStep^[5] simInit).rpm :=
  ⟨sim_engine_speed_triangle_wave.1 3 (by decide),
   (sim_engine_speed_triangle_wave.2.2.2 5).1⟩

/-! ### The restart path (race_dash_gui.py, `SettingsScreen._apply_settings`) -/

/-- Parameters accepted by `CANThread.__init__` in race_dash_core.py line 67:
`def __init__(self, signal_buffer, simulate=True)`.  There is no `**kwargs`,
so any other keyword argument raises `TypeError`. -/
def canThreadInitParams : List String := ["signal_buffer", "simulate"]

/-- Keyword arguments passed to the `CANThread(...)` constructor call inside
`SettingsScreen._apply_settings` (race_dash_gui.py lines 833-838). -/
def applySettingsKwargs : List String :=
  ["simulate", "serial_port", "baud_rate"]

/-- Python call semantics for a function without `**kwargs`: the call returns
normally iff every keyword argument names a declared parameter, otherwise it
raises `TypeError: unexpected keyword argument`. -/
def constructCANThread (kwargs : List String) : Option Unit :=
  if kwargs.all (fun k => canThreadInitParams.contains k) then some ()
  else none

inductive WorkerPhase where
  | running
  | stopRequested
  | stopped
deriving DecidableEq, Repr

/-- Outcome of one `_apply_settings` invocation: the old worker's phase, the
new worker (if one was created and started), and whether an exception escaped
the handler. -/
structure RestartOutcome where
  oldWorker : WorkerPhase
  newWorker : Option WorkerPhase
  raised : Bool
deriving DecidableEq, Repr

/-- `SettingsScreen._apply_settings` (race_dash_gui.py lines 825-847):
`stop()` the old worker, `join(timeout=0.5)` (the old worker is `stopped` if
it exited within the bounded wait, else still `stopRequested`), then construct
and `start()` a new `CANThread` with the new settings.  The constructor call
is evaluated before any assignment to `self.app_ref.can_thread`, so if it
raises, no new worker exists. -/
def applySettings (oldStopsInTime : Bool) : RestartOutcome :=
  let old := if oldStopsInTime then WorkerPhase.stopped
    else WorkerPhase.stopRequested
  match constructCANThread applySettingsKwargs with
  | some () => ⟨old, some WorkerPhase.running, false⟩
  | none => ⟨old, none, true⟩

/-- C3 (code bug): `_apply_settings` always raises `TypeError` at the
`CANThread(...)` call — `CANThread.__init__` in race_dash_core.py accepts only
`(signal_buffer, simulate)`, but the GUI passes `serial_port=` and
`baud_rate=`.  Whether or not the old worker stopped within the bounded wait,
no new worker is created or started, so the restart never yields a `Running`
worker with the new configuration, contrary to the claim and to the
function's own docstring. -/
theorem restart_raises_no_new_worker :
    applySettings true =
        ⟨WorkerPhase.stopped, none, true⟩ ∧
      applySettings false =
        ⟨WorkerPhase.stopRequested, none, true⟩ := by
  decide

/-- C4 (counterexample): `update` with a key outside the declared channel set
raises `KeyError` at runtime (at the `self.history[key]` subscript), so the
buffer's update path is not error-free for every key. -/
theorem update_unknown_key_raises :
    (SignalBuffer.init.update "boost" 1 0).isOk = false := by decide

/-- C4 (amended): `update` raises no runtime error exactly when the key is a
declared channel (present in the history dict); for any other key it raises
`KeyError`.  `update_multiple` is total for every mapping — its only
per-key subscript is guarded by `if key in self.history`. -/
theorem update_error_iff_undeclared (st : SignalBuffer) (k : String)
    (v t : Int) :
    (st.update k v t).isOk = acontains st.history k := by
  unfold SignalBuffer.update
  cases hl : alookup st.history k <;>
    simp [UpdateResult.isOk, acontains, hl]

/-- C5 (counterexample): `get_history(channel, 0)` must return at most 0
entries by the claim, but `if count:` treats 0 as falsy, so the whole history
(here one entry) is returned. -/
theorem get_history_count_zero_returns_all :
    (SignalBuffer.init.update "rpm" 5 1).state.get_history "rpm" (some 0) =
      .ok [(1, 5)] := by decide

/-- C5 (amended): for a declared channel and every POSITIVE count,
`get_history` returns the `count` most recent entries, a suffix of the
channel's history in oldest-first order, of length at most `count`; with
`count` omitted it returns all entries.  `count = 0` behaves like `count`
omitted (all entries), because the code tests truthiness, not `None`-ness. -/
theorem get_history_last_count (st : SignalBuffer) (k : String)
    (h : List (Int × Int)) (c : Nat) (hh : alookup st.history k = some h)
    (hc : 0 < c) :
    st.get_history k (some c) = .ok (lastN c h) ∧
      (lastN c h).length ≤ c ∧
      h.take (h.length - c) ++ lastN c h = h ∧
      st.get_history k none = .ok h := by
  refine ⟨?_, ?_, ?_, ?_⟩
  · simp only [SignalBuffer.get_history, hh]
    rw [if_neg hc.ne']
  · unfold lastN
    rw [List.length_drop]
    omega
  · exact List.take_append_drop _ h
  · simp only [SignalBuffer.get_history, hh]

/-- Witness for `get_history_last_count` at a buffer holding one rpm sample
and `count = 1`. -/
theorem get_history_last_count_witness :
    (SignalBuffer.init.update "rpm" 5 1).state.get_history "rpm" (some 1) =
        .ok (lastN 1 [(1, 5)]) ∧
      (lastN 1 [(1, 5)]).length ≤ 1 ∧
      List.take ([((1 : Int), (5 : Int))].length - 1) [((1 : Int), (5 : Int))]
          ++ lastN 1 [(1, 5)] = [(1, 5)] ∧
      (SignalBuffer.init.update "rpm" 5 1).state.get_history "rpm" none =
        .ok [(1, 5)] :=
  get_history_last_count (SignalBuffer.init.update "rpm" 5 1).state "rpm"
    [(1, 5)] 1 (by decide) (by decide)

/-! ### History-ring correctness (C6) -/

/-- The `(timestamp, value)` history entries one operation appends to channel
`c`, assuming `c` is a declared channel: a plain `update` of `c` appends one
pair, an `update_multiple` appends one pair per binding of `c` in iteration
order. -/
def histWrites (c : String) : BufOp → List (Int × Int)
  | .upd k v t => if k = c then [(t, v)] else []
  | .updMulti u t => (u.filter (fun p => p.1 = c)).map (fun p => (t, p.2))

/-- All history entries a call sequence appends to channel `c`, in write
order. -/
def allHistWrites (c : String) (ops : List BufOp) : List (Int × Int) :=
  (ops.map (histWrites c)).flatten

theorem lastN_length_le {α : Type} (n : Nat) (l : List α) :
    (lastN n l).length ≤ n := by
  unfold lastN
  rw [List.length_drop]
  omega

theorem lastN_of_length_le {α : Type} (n : Nat) (l : List α)
    (h : l.length ≤ n) : lastN n l = l := by
  unfold lastN
  rw [Nat.sub_eq_zero_of_le h, List.drop_zero]

theorem lastN_append_of_le {α : Type} (n : Nat) (A B : List α)
    (h : n ≤ B.length) : lastN n (A ++ B) = lastN n B := by
  unfold lastN
  rw [List.length_append]
  have harith : A.length + B.length - n = A.length + (B.length - n) := by omega
  rw [harith, List.drop_append]

/-- Re-truncating after extending on the right commutes with the first
truncation: the evicted prefix never matters again. -/
theorem lastN_lastN_append {α : Type} (n : Nat) (l ws : List α) :
    lastN n (lastN n l ++ ws) = lastN n (l ++ ws) := by
  by_cases h : l.length ≤ n
  · rw [lastN_of_length_le n l h]
  · have hn : n < l.length := Nat.lt_of_not_le h
    have hsplit : l = l.take (l.length - n) ++ lastN n l :=
      (List.take_append_drop (l.length - n) l).symm
    have hB : n ≤ (lastN n l ++ ws).length := by
      rw [List.length_append]
      unfold lastN
      rw [List.length_drop]
      omega
    calc lastN n (lastN n l ++ ws)
        = lastN n (l.take (l.length - n) ++ (lastN n l ++ ws)) :=
          (lastN_append_of_le n (l.take (l.length - n)) (lastN n l ++ ws)
            hB).symm
      _ = lastN n (l ++ ws) := by
          rw [← List.append_assoc, ← hsplit]

/-- Folding ring-buffer appends from a within-capacity start equals keeping
the last 100 of everything. -/
theorem foldl_dequeAppend (ws : List (Int × Int)) (acc : List (Int × Int))
    (hacc : acc.length ≤ 100) :
    ws.foldl dequeAppend acc = lastN 100 (acc ++ ws) := by
  induction ws generalizing acc with
  | nil =>
      rw [List.append_nil, List.foldl_nil, lastN_of_length_le 100 acc hacc]
  | cons w ws ih =>
      rw [List.foldl_cons, ih (dequeAppend acc w) (lastN_length_le 100 _)]
      unfold dequeAppend
      rw [lastN_lastN_append, List.append_assoc, List.singleton_append]

/-- Effect of one operation on the history of a declared channel `c`. -/
theorem alookup_multi_fold_history (u : List (String × Int)) (t : Int)
    (hm : List (String × List (Int × Int))) (c : String)
    (h : List (Int × Int)) (hh : alookup hm c = some h) :
    alookup
      (u.foldl
        (fun hm' p =>
          match alookup hm' p.1 with
          | some hl => aset hm' p.1 (dequeAppend hl (t, p.2))
          | none => hm')
        hm) c =
      some
        (((u.filter (fun p => p.1 = c)).map (fun p => (t, p.2))).foldl
          dequeAppend h) := by
  induction u generalizing hm h with
  | nil => simpa using hh
  | cons p rest ih =>
      rw [List.foldl_cons]
      by_cases hp : p.1 = c
      · have hmm :
            (match alookup hm p.1 with
              | some hl => aset hm p.1 (dequeAppend hl (t, p.2))
              | none => hm) = aset hm p.1 (dequeAppend h (t, p.2)) := by
          rw [hp, hh]
        rw [hmm]
        have hstep : alookup (aset hm p.1 (dequeAppend h (t, p.2))) c =
            some (dequeAppend h (t, p.2)) := by
          rw [hp]
          exact alookup_aset_self hm c _
        rw [ih _ _ hstep]
        simp [hp]
      · have hkeep :
            alookup
              (match alookup hm p.1 with
                | some hl => aset hm p.1 (dequeAppend hl (t, p.2))
                | none => hm) c = some h := by
          cases hl : alookup hm p.1 with
          | some hl' =>
              simp only [hl]
              rw [alookup_aset_ne hm p.1 c _ (fun hcc => hp hcc.symm)]
              exact hh
          | none =>
              simp only [hl]
              exact hh
        rw [ih _ _ hkeep]
        simp [hp]

theorem alookup_applyOp_history (st : SignalBuffer) (op : BufOp)
    (c : String) (h : List (Int × Int)) (hh : alookup st.history c = some h) :
    alookup (applyOp st op).history c =
      some ((histWrites c op).foldl dequeAppend h) := by
  cases op with
  | upd k v t =>
      by_cases hk : k = c
      · subst hk
        simp only [applyOp, SignalBuffer.update, hh, UpdateResult.state]
        rw [alookup_aset_self]
        simp [histWrites]
      · cases hl : alookup st.history k with
        | some hl' =>
            simp only [applyOp, SignalBuffer.update, hl, UpdateResult.state]
            rw [alookup_aset_ne st.history k c _ (fun hcc => hk hcc.symm)]
            rw [hh]
            simp [histWrites, hk]
        | none =>
            simp only [applyOp, SignalBuffer.update, hl, UpdateResult.state]
            rw [hh]
            simp [histWrites, hk]
  | updMulti u t =>
      simp only [applyOp, SignalBuffer.update_multiple]
      rw [alookup_multi_fold_history u t st.history c h hh]
      simp [histWrites]

theorem alookup_runOps_history (ops : List BufOp) (st : SignalBuffer)
    (c : String) (h : List (Int × Int)) (hh : alookup st.history c = some h) :
    alookup (runOps st ops).history c =
      some ((allHistWrites c ops).foldl dequeAppend h) := by
  induction ops generalizing st h with
  | nil => simpa [runOps, allHistWrites] using hh
  | cons op rest ih =>
      have hstep := alookup_applyOp_history st op c h hh
      have := ih (applyOp st op) _ hstep
      simp only [runOps, List.foldl_cons] at this ⊢
      rw [this]
      unfold allHistWrites
      rw [List.map_cons, List.flatten_cons, List.foldl_append]

/-- A map assigning the same constant to every key looks up to that constant
or to nothing. -/
theorem alookup_const_map {α : Type} (x : α) (ks : List String) (c : String) :
    alookup (ks.map (fun k => (k, x))) c = some x ∨
      alookup (ks.map (fun k => (k, x))) c = none := by
  induction ks with
  | nil => right; rfl
  | cons k rest ih =>
      by_cases hk : k = c
      · left; simp [alookup, hk]
      · simpa [alookup, hk] using ih

/-- C6 (confirmed): for every declared channel and every single-threaded call
sequence, the channel's history holds at most 100 entries, it equals the last
100 history writes in write order (FIFO eviction of the oldest), and once more
than 100 writes have hit the channel its length is exactly 100.  Quantifying
over all call sequences covers every intermediate moment as well, so the
bound is preserved by every operation. -/
theorem history_ring_bound (ops : List BufOp) (c : String)
    (hc : acontains SignalBuffer.init.history c = true) :
    ∃ hl, (runOps SignalBuffer.init ops).get_history c none = .ok hl ∧
      hl.length ≤ 100 ∧
      hl = lastN 100 (allHistWrites c ops) ∧
      (100 < (allHistWrites c ops).length → hl.length = 100) := by
  have hinit : alookup SignalBuffer.init.history c = some [] := by
    rcases alookup_const_map ([] : List (Int × Int)) chanKeys c with h0 | h0
    · exact h0
    · exfalso
      unfold SignalBuffer.init at hc
      simp [acontains, h0] at hc
  have hrun := alookup_runOps_history ops SignalBuffer.init c [] hinit
  have hfold : (allHistWrites c ops).foldl dequeAppend [] =
      lastN 100 (allHistWrites c ops) := by
    have := foldl_dequeAppend (allHistWrites c ops) [] (by simp)
    simpa using this
  refine ⟨lastN 100 (allHistWrites c ops), ?_, lastN_length_le _ _, rfl, ?_⟩
  · simp only [SignalBuffer.get_history, hrun, hfold]
  · intro hlong
    unfold lastN
    rw [List.length_drop]
    omega

/-- Witness for `history_ring_bound` on the rpm channel after one update. -/
theorem history_ring_bound_witness :
    ∃ hl, (runOps SignalBuffer.init [BufOp.upd "rpm" 5 1]).get_history
        "rpm" none = .ok hl ∧
      hl.length ≤ 100 ∧
      hl = lastN 100 (allHistWrites "rpm" [BufOp.upd "rpm" 5 1]) ∧
      (100 < (allHistWrites "rpm" [BufOp.upd "rpm" 5 1]).length →
        hl.length = 100) :=
  history_ring_bound [BufOp.upd "rpm" 5 1] "rpm" (by decide)

/-! ### Latest-value correctness (C7) -/

/-- The latest value written to channel `c` by one operation, threading the
previous latest value `a`: a single `update` of `c` replaces it, an
`update_multiple` replaces it once per binding of `c`, last binding wins. -/
def opWrite (c : String) (a : Option Int) : BufOp → Option Int
  | .upd k v _ => if k = c then some v else a
  | .updMulti u _ =>
      u.foldl (fun a' p => if p.1 = c then some p.2 else a') a

/-- The value of the last write to channel `c` in the whole sequence, `none`
if the channel was never written. -/
def lastWrite (c : String) (ops : List BufOp) : Option Int :=
  ops.foldl (opWrite c) none

theorem alookup_foldl_aset (u : List (String × Int))
    (d : List (String × Int)) (c : String) :
    alookup (u.foldl (fun m p => aset m p.1 p.2) d) c =
      u.foldl (fun a p => if p.1 = c then some p.2 else a) (alookup d c) := by
  induction u generalizing d with
  | nil => rfl
  | cons p rest ih =>
      rw [List.foldl_cons, List.foldl_cons, ih]
      by_cases hp : p.1 = c
      · rw [if_pos hp, hp, alookup_aset_self]
      · rw [if_neg hp, alookup_aset_ne d p.1 c _ (fun hcc => hp hcc.symm)]

theorem alookup_applyOp_data (st : SignalBuffer) (op : BufOp) (c : String)
    (hc : c ≠ "timestamp") :
    alookup (applyOp st op).data c = opWrite c (alookup st.data c) op := by
  cases op with
  | upd k v t =>
      have hdata : (applyOp st (.upd k v t)).data =
          aset (aset st.data k v) "timestamp" t := by
        simp only [applyOp, SignalBuffer.update]
        cases alookup st.history k <;> rfl
      rw [hdata, alookup_aset_ne _ "timestamp" c _ hc]
      by_cases hk : k = c
      · rw [hk, alookup_aset_self]
        simp [opWrite, hk]
      · rw [alookup_aset_ne st.data k c _ (fun hcc => hk hcc.symm)]
        simp [opWrite, hk]
  | updMulti u t =>
      simp only [applyOp, SignalBuffer.update_multiple]
      rw [alookup_aset_ne _ "timestamp" c _ hc, alookup_foldl_aset]
      rfl

theorem alookup_runOps_data (ops : List BufOp) (st : SignalBuffer)
    (c : String) (hc : c ≠ "timestamp") :
    alookup (runOps st ops).data c =
      ops.foldl (opWrite c) (alookup st.data c) := by
  induction ops generalizing st with
  | nil => rfl
  | cons op rest ih =>
      simp only [runOps, List.foldl_cons] at ih ⊢
      rw [ih (applyOp st op), alookup_applyOp_data st op c hc]

theorem foldl_if_getD_congr (c : String) (u : List (String × Int))
    (a b : Option Int) (hab : a.getD 0 = b.getD 0) :
    (u.foldl (fun a' p => if p.1 = c then some p.2 else a') a).getD 0 =
      (u.foldl (fun a' p => if p.1 = c then some p.2 else a') b).getD 0 := by
  induction u generalizing a b with
  | nil => exact hab
  | cons p rest ih =>
      rw [List.foldl_cons, List.foldl_cons]
      by_cases hp : p.1 = c
      · rw [if_pos hp, if_pos hp]
      · rw [if_neg hp, if_neg hp]
        exact ih a b hab

theorem foldl_opWrite_getD_congr (c : String) (ops : List BufOp)
    (a b : Option Int) (hab : a.getD 0 = b.getD 0) :
    (ops.foldl (opWrite c) a).getD 0 = (ops.foldl (opWrite c) b).getD 0 := by
  induction ops generalizing a b with
  | nil => exact hab
  | cons op rest ih =>
      rw [List.foldl_cons, List.foldl_cons]
      refine ih _ _ ?_
      cases op with
      | upd k v t =>
          by_cases hk : k = c <;> simp [opWrite, hk, hab]
      | updMulti u t => exact foldl_if_getD_congr c u a b hab

theorem alookup_const_map_getD (ks : List String) (c : String) :
    (alookup (ks.map (fun k => (k, (0 : Int)))) c).getD 0 = 0 := by
  rcases alookup_const_map (0 : Int) ks c with h0 | h0 <;> rw [h0] <;> rfl

/-- C7 (confirmed): for every channel other than the timestamp and every
single-threaded sequence of `update`/`update_multiple` calls, `get` returns
exactly the value of the last write to that channel, and 0 if the channel was
never written.  This holds for declared channels (which start at 0) and even
for keys first introduced by the calls themselves. -/
theorem get_returns_last_write (ops : List BufOp) (c : String)
    (hc : c ≠ "timestamp") :
    (runOps SignalBuffer.init ops).get c = (lastWrite c ops).getD 0 := by
  unfold SignalBuffer.get lastWrite
  rw [alookup_runOps_data ops _ c hc]
  exact foldl_opWrite_getD_congr c ops _ none
    (alookup_const_map_getD chanKeys c)

/-- Witness for `get_returns_last_write`: rpm is written twice (once in a
batch, once alone); `get` returns the second value. -/
theorem get_returns_last_write_witness :
    (runOps SignalBuffer.init
        [BufOp.updMulti [("rpm", 9), ("speed", 2)] 4,
         BufOp.upd "rpm" 11 5]).get "rpm" =
      (lastWrite "rpm"
        [BufOp.updMulti [("rpm", 9), ("speed", 2)] 4,
         BufOp.upd "rpm" 11 5]).getD 0 :=
  get_returns_last_write
    [BufOp.updMulti [("rpm", 9), ("speed", 2)] 4, BufOp.upd "rpm" 11 5]
    "rpm" (by decide)

/-! ### Snapshot independence (C8): a dict heap making `.copy()` observable -/

/-- A heap of dict objects: `cells` maps addresses to dict contents, `next`
is the next fresh address.  This makes Python's reference semantics explicit,
so that `self.data.copy()` (a fresh object) is distinguishable from returning
`self.data` itself. -/
structure DictHeap where
  cells : List (Nat × List (String × Int))
  next : Nat
deriving DecidableEq, Repr

def heapRead (h : DictHeap) (r : Nat) : List (String × Int) :=
  (alookup h.cells r).getD []

def heapWrite (h : DictHeap) (r : Nat) (d : List (String × Int)) : DictHeap :=
  ⟨aset h.cells r d, h.next⟩

def heapAlloc (h : DictHeap) (d : List (String × Int)) : Nat × DictHeap :=
  (h.next, ⟨aset h.cells h.next d, h.next + 1⟩)

/-- The `data`-dict mutations of `SignalBuffer.update` /
`SignalBuffer.update_multiple`, performed in place on the buffer's dict at
address `b` (history is irrelevant to snapshot aliasing and omitted). -/
def applyHeapOp (b : Nat) (h : DictHeap) : BufOp → DictHeap
  | .upd k v t =>
      heapWrite h b (aset (aset (heapRead h b) k v) "timestamp" t)
  | .updMulti u t =>
      heapWrite h b
        (aset (u.foldl (fun m p => aset m p.1 p.2) (heapRead h b))
          "timestamp" t)

/-- `SignalBuffer.get_all` on the heap: `return self.data.copy()` allocates a
fresh dict holding the current contents of the buffer's dict and returns its
address. -/
def getAllHeap (h : DictHeap) (b : Nat) : Nat × DictHeap :=
  heapAlloc h (heapRead h b)

theorem heapRead_write_ne (h : DictHeap) (b r : Nat)
    (d : List (String × Int)) (hne : r ≠ b) :
    heapRead (heapWrite h b d) r = heapRead h r := by
  unfold heapRead heapWrite
  rw [alookup_aset_ne h.cells b r d hne]

theorem heapRead_applyHeapOp_ne (b r : Nat) (h : DictHeap) (op : BufOp)
    (hne : r ≠ b) : heapRead (applyHeapOp b h op) r = heapRead h r := by
  cases op <;> exact heapRead_write_ne h b r _ hne

theorem applyHeapOp_next (b : Nat) (h : DictHeap) (op : BufOp) :
    (applyHeapOp b h op).next = h.next := by
  cases op <;> rfl

/-- C8 (confirmed): the snapshot returned by `get_all` is an independent copy
of the buffer's full mapping: it reads back as the buffer's contents at
capture time, and any later sequence of `update`/`update_multiple` mutations
of the buffer's dict leaves the snapshot object unchanged, because the
snapshot lives at a fresh address distinct from the buffer's dict. -/
theorem get_all_snapshot_independent (h : DictHeap) (b : Nat)
    (ops : List BufOp) (hb : b < h.next) :
    heapRead (getAllHeap h b).2 (getAllHeap h b).1 = heapRead h b ∧
      heapRead (ops.foldl (applyHeapOp b) (getAllHeap h b).2)
        (getAllHeap h b).1 = heapRead h b := by
  have hfresh : h.next ≠ b := by omega
  have hcapture :
      heapRead (getAllHeap h b).2 (getAllHeap h b).1 = heapRead h b := by
    unfold getAllHeap heapAlloc heapRead
    simp only
    rw [alookup_aset_self]
    rfl
  refine ⟨hcapture, ?_⟩
  have hstable : ∀ (l : List BufOp) (hh : DictHeap),
      heapRead hh (getAllHeap h b).1 = heapRead h b →
      heapRead (l.foldl (applyHeapOp b) hh) (getAllHeap h b).1 =
        heapRead h b := by
    intro l
    induction l with
    | nil => intro hh hcur; exact hcur
    | cons op rest ih =>
        intro hh hcur
        rw [List.foldl_cons]
        refine ih _ ?_
        have haddr : (getAllHeap h b).1 = h.next := rfl
        rw [haddr] at hcur ⊢
        rw [heapRead_applyHeapOp_ne b h.next hh op hfresh]
        exact hcur
  exact hstable ops _ hcapture

/-- Witness for `get_all_snapshot_independent`: a one-dict heap whose buffer
lives at address 0; after an rpm update the earlier snapshot still reads its
captured contents. -/
theorem get_all_snapshot_independent_witness :
    heapRead
        (getAllHeap (DictHeap.mk [(0, [("rpm", 0)])] 1) 0).2
        (getAllHeap (DictHeap.mk [(0, [("rpm", 0)])] 1) 0).1 =
      heapRead (DictHeap.mk [(0, [("rpm", 0)])] 1) 0 ∧
      heapRead
        ([BufOp.upd "rpm" 9 1].foldl (applyHeapOp 0)
          (getAllHeap (DictHeap.mk [(0, [("rpm", 0)])] 1) 0).2)
        (getAllHeap (DictHeap.mk [(0, [("rpm", 0)])] 1) 0).1 =
      heapRead (DictHeap.mk [(0, [("rpm", 0)])] 1) 0 :=
  get_all_snapshot_independent (DictHeap.mk [(0, [("rpm", 0)])] 1) 0
    [BufOp.upd "rpm" 9 1] (by decide)

/-! ### Batch atomicity under concurrency (C9)

`update_multiple` and `get_all` each execute entirely inside `with self.lock`
(race_dash_core.py lines 38, 53), so any concurrent execution of W writers
and R readers serialises into a sequence of whole critical sections.  A
schedule is that serialisation: each event is one writer's complete
`update_multiple` or one reader's complete `get_all`. -/

inductive SchedEvent where
  | write (u : List (String × Int)) (t : Int)
  | read
deriving DecidableEq, Repr

/-- Runs a serialised schedule from a buffer state, collecting the snapshot
each reader observed. -/
def runSched : SignalBuffer → List SchedEvent → List (List (String × Int))
  | _, [] => []
  | st, .write u t :: rest => runSched (st.update_multiple u t) rest
  | st, .read :: rest => st.get_all :: runSched st rest

theorem foldl_if_mem_const (c : String) (tag : Int) (L : List String)
    (a : Option Int) (h : a = some tag ∨ c ∈ L) :
    (L.map (fun k => (k, tag))).foldl
      (fun a' p => if p.1 = c then some p.2 else a') a = some tag := by
  induction L generalizing a with
  | nil =>
      rcases h with h | h
      · exact h
      · cases h
  | cons k rest ih =>
      rw [List.map_cons, List.foldl_cons]
      rcases h with h | h
      · refine ih _ (Or.inl ?_)
        by_cases hk : k = c <;> simp [hk, h]
      · rcases List.mem_cons.mp h with h1 | h1
        · refine ih _ (Or.inl ?_)
          simp [h1.symm]
        · exact ih _ (Or.inr h1)

theorem runSched_snapshots_common (sched : List SchedEvent)
    (st : SignalBuffer) (C : List String) (hts : "timestamp" ∉ C)
    (hw : ∀ e ∈ sched, ∀ u t, e = SchedEvent.write u t →
      ∃ tag : Int, u = C.map (fun c => (c, tag)))
    (hst : ∃ tag : Int, ∀ c ∈ C, alookup st.data c = some tag) :
    ∀ snap ∈ runSched st sched,
      ∀ c₁ ∈ C, ∀ c₂ ∈ C, alookup snap c₁ = alookup snap c₂ := by
  induction sched generalizing st with
  | nil => intro snap hsnap; cases hsnap
  | cons e rest ih =>
      cases e with
      | write u t =>
          obtain ⟨tag, hu⟩ :=
            hw (SchedEvent.write u t) (List.mem_cons_self _ _) u t rfl
          refine ih (st.update_multiple u t) ?_ ⟨tag, ?_⟩
          · intro e' he' u' t' heq
            exact hw e' (List.mem_cons_of_mem _ he') u' t' heq
          · intro c hc
            have hcts : c ≠ "timestamp" := fun hcc => hts (hcc ▸ hc)
            simp only [SignalBuffer.update_multiple]
            rw [alookup_aset_ne _ "timestamp" c _ hcts, hu,
              alookup_foldl_aset, foldl_if_mem_const c tag C _ (Or.inr hc)]
      | read =>
          intro snap hsnap
          rcases List.mem_cons.mp hsnap with h1 | h1
          · obtain ⟨tag, hall⟩ := hst
            intro c₁ hc₁ c₂ hc₂
            rw [h1]
            unfold SignalBuffer.get_all
            rw [hall c₁ hc₁, hall c₂ hc₂]
          · exact ih st
              (fun e' he' u' t' heq =>
                hw e' (List.mem_cons_of_mem _ he') u' t' heq)
              hst snap h1

/-- C9 (confirmed): with any number of concurrent writers issuing whole-batch
`update_multiple` calls over a fixed channel set `C` (each batch tagging all
its channels with one batch id) and any number of concurrent readers calling
`get_all`, in every serialisation permitted by the buffer's single lock every
observed snapshot assigns the SAME tag to all channels of `C`: no snapshot
ever mixes values from two different batches. -/
theorem update_batches_atomic (sched : List SchedEvent) (C : List String)
    (hts : "timestamp" ∉ C)
    (hC : ∀ c ∈ C, alookup SignalBuffer.init.data c = some 0)
    (hw : ∀ e ∈ sched, ∀ u t, e = SchedEvent.write u t →
      ∃ tag : Int, u = C.map (fun c => (c, tag))) :
    ∀ snap ∈ runSched SignalBuffer.init sched,
      ∀ c₁ ∈ C, ∀ c₂ ∈ C, alookup snap c₁ = alookup snap c₂ :=
  runSched_snapshots_common sched SignalBuffer.init C hts hw ⟨0, hC⟩

/-- Witness for `update_batches_atomic`: one writer batch tagging rpm and
speed with 7, one reader; the snapshot agrees on both channels. -/
theorem update_batches_atomic_witness :
    alookup (SignalBuffer.init.update_multiple
        [("rpm", 7), ("speed", 7)] 3).get_all "rpm" =
      alookup (SignalBuffer.init.update_multiple
        [("rpm", 7), ("speed", 7)] 3).get_all "speed" :=
  update_batches_atomic
    [SchedEvent.write [("rpm", 7), ("speed", 7)] 3, SchedEvent.read]
    ["rpm", "speed"] (by decide) (by decide)
    (by
      intro e he u t heq
      rcases List.mem_cons.mp he with h1 | h1
      · rw [h1] at heq
        injection heq with h2 h3
        exact ⟨7, by rw [← h2]; decide⟩
      · rcases List.mem_singleton.mp h1 with h2
        rw [List.mem_singleton.mp h1] at heq
        exact SchedEvent.noConfusion heq)
    (SignalBuffer.init.update_multiple [("rpm", 7), ("speed", 7)] 3).get_all
    (by decide) "rpm" (by decide) "speed" (by decide)

/-! ### Unknown keys: silent insertion vs KeyError (C10) -/

theorem foldl_if_last_some (k : String) (u : List (String × Int)) (v : Int)
    (a : Option Int)
    (hsome : u.foldl (fun a' p => if p.1 = k then some p.2 else a') none =
      some v) :
    u.foldl (fun a' p => if p.1 = k then some p.2 else a') a = some v := by
  induction u generalizing a with
  | nil => cases hsome
  | cons p rest ih =>
      rw [List.foldl_cons] at hsome ⊢
      by_cases hp : p.1 = k
      · rw [if_pos hp] at hsome ⊢
        exact hsome
      · rw [if_neg hp] at hsome ⊢
        exact ih a hsome

/-- The history fold of `update_multiple` never creates a key: a key absent
from the history dict stays absent. -/
theorem alookup_multi_fold_none (u : List (String × Int)) (t : Int)
    (hm : List (String × List (Int × Int))) (k : String)
    (hk : alookup hm k = none) :
    alookup
      (u.foldl
        (fun hm' p =>
          match alookup hm' p.1 with
          | some hl => aset hm' p.1 (dequeAppend hl (t, p.2))
          | none => hm')
        hm) k = none := by
  induction u generalizing hm with
  | nil => exact hk
  | cons p rest ih =>
      rw [List.foldl_cons]
      cases hl : alookup hm p.1 with
      | none =>
          simp only [hl]
          exact ih hm hk
      | some hl' =>
          simp only [hl]
          refine ih _ ?_
          have hne : k ≠ p.1 := by
            intro he
            rw [he, hl] at hk
            cases hk
          rw [alookup_aset_ne hm p.1 k _ hne]
          exact hk

theorem acontains_foldl_aset (u : List (String × Int))
    (d : List (String × Int)) (k : String) (h : acontains d k = true) :
    acontains (u.foldl (fun m p => aset m p.1 p.2) d) k = true := by
  induction u generalizing d with
  | nil => exact h
  | cons p rest ih =>
      rw [List.foldl_cons]
      exact ih _ (acontains_aset_of_acontains d p.1 k p.2 h)

theorem acontains_applyOp_data (st : SignalBuffer) (op : BufOp) (k : String)
    (h : acontains st.data k = true) :
    acontains (applyOp st op).data k = true := by
  cases op with
  | upd k' v t =>
      have hdata : (applyOp st (.upd k' v t)).data =
          aset (aset st.data k' v) "timestamp" t := by
        simp only [applyOp, SignalBuffer.update]
        cases alookup st.history k' <;> rfl
      rw [hdata]
      exact acontains_aset_of_acontains _ "timestamp" k t
        (acontains_aset_of_acontains st.data k' k v h)
  | updMulti u t =>
      simp only [applyOp, SignalBuffer.update_multiple]
      exact acontains_aset_of_acontains _ "timestamp" k t
        (acontains_foldl_aset u st.data k h)

theorem acontains_runOps_data (ops : List BufOp) (st : SignalBuffer)
    (k : String) (h : acontains st.data k = true) :
    acontains (runOps st ops).data k = true := by
  induction ops generalizing st with
  | nil => exact h
  | cons op rest ih =>
      simp only [runOps, List.foldl_cons] at ih ⊢
      exact ih (applyOp st op) (acontains_applyOp_data st op k h)

/-- C10 (confirmed): for a mapping whose last binding of an undeclared key
`k` is `v`, `update_multiple` raises nothing and silently inserts `k` into
the latest-value dict — every subsequent `get_all` snapshot (after any
further call sequence) contains the extra key, breaking "a snapshot maps
exactly the declared channels plus timestamp" — while appending no history
entry for `k`; whereas `update` with the same unknown key raises `KeyError`
after having already set the latest value and refreshed the timestamp. -/
theorem unknown_key_batch_inserts_update_raises (st : SignalBuffer)
    (k : String) (v t : Int) (u : List (String × Int))
    (hk : alookup st.history k = none) (hts : k ≠ "timestamp")
    (hlast : u.foldl (fun a p => if p.1 = k then some p.2 else a) none =
      some v) :
    alookup (st.update_multiple u t).data k = some v ∧
      alookup (st.update_multiple u t).history k = none ∧
      acontains ((st.update_multiple u t).get_all) k = true ∧
      (∀ more : List BufOp,
        acontains (runOps (st.update_multiple u t) more).data k = true) ∧
      st.update k v t =
        .keyError ⟨aset (aset st.data k v) "timestamp" t, st.history⟩ := by
  have hdata : alookup (st.update_multiple u t).data k = some v := by
    simp only [SignalBuffer.update_multiple]
    rw [alookup_aset_ne _ "timestamp" k _ hts, alookup_foldl_aset]
    exact foldl_if_last_some k u v _ hlast
  have hcont : acontains (st.update_multiple u t).data k = true := by
    rw [acontains, hdata]
    rfl
  refine ⟨hdata, ?_, hcont, ?_, ?_⟩
  · simp only [SignalBuffer.update_multiple]
    exact alookup_multi_fold_none u t st.history k hk
  · intro more
    exact acontains_runOps_data more _ k hcont
  · simp only [SignalBuffer.update, hk]

/-- Witness for `unknown_key_batch_inserts_update_raises` on the undeclared
key `"boost"`. -/
theorem unknown_key_batch_inserts_update_raises_witness :
    alookup (SignalBuffer.init.update_multiple [("boost", 7)] 3).data
        "boost" = some 7 ∧
      alookup (SignalBuffer.init.update_multiple [("boost", 7)] 3).history
        "boost" = none ∧
      acontains ((SignalBuffer.init.update_multiple [("boost", 7)] 3).get_all)
        "boost" = true ∧
      acontains (runOps (SignalBuffer.init.update_multiple [("boost", 7)] 3)
        [BufOp.upd "rpm" 1 4]).data "boost" = true ∧
      SignalBuffer.init.update "boost" 7 3 =
        .keyError ⟨aset (aset SignalBuffer.init.data "boost" 7) "timestamp" 3,
          SignalBuffer.init.history⟩ :=
  let T := unknown_key_batch_inserts_update_raises SignalBuffer.init "boost"
    7 3 [("boost", 7)] (by decide) (by decide) (by decide)
  ⟨T.1, T.2.1, T.2.2.1, T.2.2.2.1 [BufOp.upd "rpm" 1 4], T.2.2.2.2⟩
